import Mathlib

/-!
Verification of the vanity-pubky generator (src/main.rs).

The development shallowly embeds the program: Rust strings become Lean
strings (manipulated through their character lists), machine integers
become Nat, fallible operations return Except or Option, and the
multi-threaded search loop becomes an explicit interleaving semantics in
which each atomic operation on the two shared cells (the found latch and
the attempts counter) is one step of one worker.
-/

/-- Models Rust char::is_whitespace: membership of the code point in the
Unicode White_Space set (the 25 code points listed in the Unicode data
the Rust standard library uses). -/
def rustIsWhitespace (c : Char) : Bool :=
  [9, 10, 11, 12, 13, 32, 0x85, 0xA0, 0x1680, 0x2000, 0x2001, 0x2002, 0x2003,
   0x2004, 0x2005, 0x2006, 0x2007, 0x2008, 0x2009, 0x200A, 0x2028, 0x2029,
   0x202F, 0x205F, 0x3000].contains c.toNat

/-- Models Rust str::trim (main.rs line 74): drop leading and trailing
whitespace characters. -/
def rustTrim (s : String) : String :=
  ⟨(((s.data.dropWhile fun c => rustIsWhitespace c).reverse.dropWhile
      fun c => rustIsWhitespace c).reverse)⟩

/-- Models Rust char::to_ascii_lowercase (main.rs line 91): map the code
points of A..Z to a..z and leave every other character unchanged. -/
def toAsciiLower (c : Char) : Char :=
  if 65 ≤ c.toNat ∧ c.toNat ≤ 90 then Char.ofNat (c.toNat + 32) else c

/-- Models Rust str::to_lowercase as used at main.rs lines 102 and 153.
Unicode lowercasing agrees with per-character ASCII lowercasing on every
string the program applies it to: the validated vanity name (whose
characters all satisfy the ASCII alphabet check of line 91) and z-base32
public-key encodings (ASCII by construction). -/
def lowercase (s : String) : String := ⟨s.data.map toAsciiLower⟩

/-- The 32 characters accepted by is_valid_zbase32_char in main.rs lines
10-15, in the order they appear in the comment there:
ybndrfg8ejkmcpqxot1uwisza345h769. -/
def zbase32Alphabet : List Char :=
  ['y', 'b', 'n', 'd', 'r', 'f', 'g', '8', 'e', 'j', 'k', 'm', 'c', 'p', 'q',
   'x', 'o', 't', '1', 'u', 'w', 'i', 's', 'z', 'a', '3', '4', '5', 'h', '7',
   '6', '9']

/-- is_valid_zbase32_char (main.rs lines 10-15): the matches! macro over
exactly the 32 alphabet characters. -/
def is_valid_zbase32_char (c : Char) : Bool := zbase32Alphabet.contains c

/-- The three prefix-validation failure modes of main.rs lines 77-99, named
as in the specification. InvalidCharacters carries the offending characters
in input order, as collected by the filter at lines 89-92. -/
inductive VError where
  | EmptyInput
  | ContainsWhitespace
  | InvalidCharacters (chars : List Char)
deriving DecidableEq

deriving instance DecidableEq for Except

/-- The invalid-character collection of main.rs lines 89-92: the characters
of the trimmed name whose ASCII-lowercased form is outside the alphabet. -/
def invalidCharsOf (t : String) : List Char :=
  t.data.filter fun c => ! is_valid_zbase32_char (toAsciiLower c)

/-- The prefix-validation pipeline of main.rs lines 73-102: trim, reject
internal spaces (line 77), reject emptiness (line 83), reject invalid
characters (lines 89-99), and otherwise return the lowercased name
(line 102). Each error constructor stands for the corresponding
eprintln/exit(1) branch of the source. -/
def validate (raw : String) : Except VError String :=
  let t := rustTrim raw
  if t.data.contains ' ' then .error .ContainsWhitespace
  else if t.data.isEmpty then .error .EmptyInput
  else if invalidCharsOf t = [] then .ok (lowercase t)
  else .error (.InvalidCharacters (invalidCharsOf t))

/-- Models Rust usize::from_str as invoked at main.rs line 112 (64-bit
target): an optional leading plus sign followed by one or more ASCII
digits; anything else, and values that overflow 64 bits, are parse
errors. -/
def parseUsize (s : String) : Option Nat :=
  let cs := match s.data with
    | '+' :: rest => rest
    | cs => cs
  if cs = [] then none
  else if cs.all (fun c => decide (48 ≤ c.toNat ∧ c.toNat ≤ 57)) then
    let v := cs.foldl (fun acc c => 10 * acc + (c.toNat - 48)) 0
    if v < 2 ^ 64 then some v else none
  else none

/-- The thread-count selection of main.rs lines 110-116: an absent
--threads argument defaults to the CPU count, and a present argument is
parsed as usize with only a parse failure falling back (with a warning) to
the CPU count. -/
def numThreads (threadsArg : Option String) (cpuCount : Nat) : Nat :=
  match threadsArg with
  | none => cpuCount
  | some t => (parseUsize t).getD cpuCount

/-- Where a diagnostic line is written. -/
inductive OutChannel where
  | standardOut
  | standardError
deriving DecidableEq

/-- A process outcome: the channel and leading line of its diagnostic
output, and the process exit code. -/
structure ExitReport where
  channel : OutChannel
  exitCode : Nat
  message : String
deriving DecidableEq

/-- The three eprintln plus exit(1) validation-failure branches of main.rs
lines 77-99. For InvalidCharacters the message is the constant head of the
line at 95; the Debug-formatted character list and the two hint lines that
follow it are elided. -/
def validationReport : VError → ExitReport
  | .ContainsWhitespace => ⟨.standardError, 1, "Error: Vanity name cannot contain spaces."⟩
  | .EmptyInput => ⟨.standardError, 1, "Error: Vanity name cannot be empty."⟩
  | .InvalidCharacters _ => ⟨.standardError, 1, "Error: Vanity name contains invalid characters: "⟩

/-- The final reporting branch of main.rs lines 205-235, keyed on whether
the join loop recovered a winning keypair: on success the program prints
the key report to stdout (message abbreviated to its first words here) and
falls off the end of main with exit code 0; with no match it prints the
line at 234 to stdout and likewise exits 0. -/
def finalReport (joined : Option String × Nat) : ExitReport :=
  match joined.1 with
  | some _ => ⟨.standardOut, 0, "Found matching public key"⟩
  | none => ⟨.standardOut, 0, "No matching key found. This shouldn\x27t happen!"⟩

/-- The lowercase hex digit for a value below 16, as produced by the hex
crate used at main.rs line 18. -/
def hexDigitChar (d : Nat) : Char :=
  if d < 10 then Char.ofNat (48 + d) else Char.ofNat (87 + d)

/-- hex::encode of a byte sequence: two lowercase digits per byte. -/
def hexEncodeList : List Nat → List Char
  | [] => []
  | b :: bs => hexDigitChar (b / 16) :: hexDigitChar (b % 16) :: hexEncodeList bs

/-- The value of one hex digit as accepted by hex::decode: 0-9, a-f and
A-F (code points compared numerically). -/
def hexDigitVal (c : Char) : Option Nat :=
  if 48 ≤ c.toNat ∧ c.toNat ≤ 57 then some (c.toNat - 48)
  else if 97 ≤ c.toNat ∧ c.toNat ≤ 102 then some (c.toNat - 87)
  else if 65 ≤ c.toNat ∧ c.toNat ≤ 70 then some (c.toNat - 55)
  else none

/-- hex::decode as called at main.rs line 22: consume the characters in
pairs, failing on odd length or on any non-digit. -/
def hexDecodeList : List Char → Option (List Nat)
  | [] => some []
  | [_] => none
  | c1 :: c2 :: rest =>
      match hexDigitVal c1, hexDigitVal c2, hexDecodeList rest with
      | some hi, some lo, some bs => some ((16 * hi + lo) :: bs)
      | _, _, _ => none

/-- Modelled from the spec: the external keypair provider of section 6 is
absent from src (it lives in the pubky crate), and its interface says a
keypair carries a 32-byte raw secret, secret_bytes(Keypair) -> 32-byte
array. The model keeps exactly that observable state, a byte list. -/
structure Keypair where
  secret_key : List Nat
deriving DecidableEq

/-- Modelled from the spec: Keypair::from_secret_key (main.rs line 34)
rebuilds the keypair carrying the given 32 secret bytes. -/
def Keypair.from_secret_key (bytes : List Nat) : Keypair := ⟨bytes⟩

/-- get_secret_key_from_keypair (main.rs lines 17-19): hex::encode of the
raw secret bytes. -/
def get_secret_key_from_keypair (k : Keypair) : String :=
  ⟨hexEncodeList k.secret_key⟩

/-- get_keypair_from_secret_key (main.rs lines 21-35): hex::decode, then
the try_into conversion to a 32-byte array, each failure returning the
error string of the corresponding branch. -/
def get_keypair_from_secret_key (s : String) : Except String Keypair :=
  match hexDecodeList s.data with
  | none => .error ("Failed to decode secret key")
  | some bytes =>
      if bytes.length = 32 then .ok (Keypair.from_secret_key bytes)
      else .error ("Failed to convert secret key to 32-byte array")

/-- Program counter of one worker thread (main.rs lines 142-181), split at
its atomic accesses to the shared cells. head: about to read the found
latch at the loop condition (line 146). publish: the local counter just
reached a batch boundary and the worker is about to fetch_add 1000 to the
shared counter (line 157); the advisory progress print of lines 160-163
only reads the counter and is folded into this step. check: about to
compare the lowercased encoding with the prefix and, on a match, store
true to the latch and return (lines 167-175). done: the closure returned,
carrying Some((encoding, local_attempts)) or None; the secret-key hex and
keypair handle also present in the source tuple play no role in
coordination or accounting and are elided. -/
inductive WPC where
  | head
  | publish (enc : String)
  | check (enc : String)
  | done (res : Option (String × Nat))
deriving DecidableEq

/-- One worker: its program counter and its local (unshared) attempt
counter (main.rs line 144). -/
structure WState where
  pc : WPC
  localAttempts : Nat
deriving DecidableEq

/-- The shared state of a search with n workers: the found latch, the
attempts counter (main.rs lines 131-132) and every worker's state. -/
structure Config (n : Nat) where
  found : Bool
  attempts : Nat
  workers : Fin n → WState

/-- One atomic step of a single worker against the shared cells, with the
purely local work (drawing the next scripted encoding for Keypair::random
plus to_string at lines 148-153, and the local increment at 155) attached
to the adjacent shared access. From head, the worker reads the latch: if
set it returns None, otherwise it samples encoding number localAttempts
from its script, increments the local counter, and proceeds to publish
when the new count is a multiple of 1000 (line 156) or directly to check.
From publish it adds 1000 to the shared counter. From check, a match
stores true to the latch — an unconditional store, not a compare and swap
(line 169) — and returns the candidate; otherwise it loops to head. -/
def workerStep (pfx : String) (provider : Nat → String) (found : Bool) (attempts : Nat)
    (w : WState) : Bool × Nat × WState :=
  match w.pc with
  | .head =>
      if found then (found, attempts, ⟨.done none, w.localAttempts⟩)
      else
        let enc := provider w.localAttempts
        let la := w.localAttempts + 1
        if la % 1000 == 0 then (found, attempts, ⟨.publish enc, la⟩)
        else (found, attempts, ⟨.check enc, la⟩)
  | .publish enc => (found, attempts + 1000, ⟨.check enc, w.localAttempts⟩)
  | .check enc =>
      if pfx.data.isPrefixOf (lowercase enc).data then
        (true, attempts, ⟨.done (some (enc, w.localAttempts)), w.localAttempts⟩)
      else (found, attempts, ⟨.head, w.localAttempts⟩)
  | .done _ => (found, attempts, w)

/-- Interleaving semantics: scheduling worker i for one atomic step. -/
def searchStep {n : Nat} (pfx : String) (provider : Fin n → Nat → String) (cfg : Config n)
    (i : Fin n) : Config n :=
  let r := workerStep pfx (provider i) cfg.found cfg.attempts (cfg.workers i)
  ⟨r.1, r.2.1, Function.update cfg.workers i r.2.2⟩

/-- A whole execution: the steps of a schedule, in order. -/
def runSearch {n : Nat} (pfx : String) (provider : Fin n → Nat → String) (cfg : Config n)
    (sched : List (Fin n)) : Config n :=
  sched.foldl (searchStep pfx provider) cfg

/-- The coordinator's initial state (main.rs lines 131-132 and 144): latch
false, counter zero, every worker at the loop head with zero local
attempts. -/
def initConfig (n : Nat) : Config n := ⟨false, 0, fun _ => ⟨.head, 0⟩⟩

/-- The join loop and total of main.rs lines 186-202: walk the handles in
spawn order, letting each Some overwrite the result variables (so the last
matched worker wins), then report the shared counter plus the winning
worker's returned local count. -/
def aggregate {n : Nat} (cfg : Config n) : Option String × Nat :=
  let winner := (List.finRange n).foldl (fun acc i =>
    match (cfg.workers i).pc with
    | .done (some r) => some r
    | _ => acc) none
  (winner.map Prod.fst, cfg.attempts + (winner.map Prod.snd).getD 0)

/-- Whether worker i has returned a non-empty result. -/
def returnedSome {n : Nat} (cfg : Config n) (i : Fin n) : Bool :=
  match (cfg.workers i).pc with
  | .done (some _) => true
  | _ => false

/-- The worker loop of main.rs lines 142-181 specialized to a single
worker running alone over a scripted list of encodings, returning the
closure result together with the final shared counter. With one worker the
latch stays false until the worker itself stores and immediately returns,
so the loop-head latch read never observes true and the loop walks the
script: count the sample (line 155), publish a batch of 1000 at each batch
boundary (lines 156-157), then test the lowercased encoding against the
prefix (line 167). -/
def runSingle (pfx : String) : List String → Nat → Nat → Option (String × Nat) × Nat
  | [], _, a => (none, a)
  | enc :: rest, la, a =>
      let la' := la + 1
      let a' := if la' % 1000 == 0 then a + 1000 else a
      if pfx.data.isPrefixOf (lowercase enc).data then (some (enc, la'), a')
      else runSingle pfx rest la' a'

/-- The reported total of main.rs line 202: the shared counter plus the
winning worker's own returned local count (found_thread_attempts, zero if
no worker matched). -/
def totalAttemptsReported (r : Option (String × Nat) × Nat) : Nat :=
  r.2 + (match r.1 with | some (_, la) => la | none => 0)

-- Basic facts about the alphabet and character folding.

theorem alphabet_chars_fixed :
    ∀ c ∈ zbase32Alphabet, rustIsWhitespace c = false ∧ toAsciiLower c = c ∧ c ≠ ' ' := by
  decide

theorem valid_mem {c : Char} (h : is_valid_zbase32_char c = true) :
    c ∈ zbase32Alphabet := by
  simpa [is_valid_zbase32_char] using h

theorem dropWhile_of_all_false {p : Char → Bool} {l : List Char}
    (h : ∀ x ∈ l, p x = false) : l.dropWhile p = l := by
  cases l with
  | nil => rfl
  | cons a l =>
      rw [List.dropWhile_cons]
      simp [h a (by simp)]

theorem map_id_of_mem {α : Type} {f : α → α} {l : List α}
    (h : ∀ x ∈ l, f x = x) : l.map f = l := by
  rw [show l.map f = l.map id from List.map_congr_left h, List.map_id]

theorem rustTrim_of_no_ws {p : String}
    (h : ∀ c ∈ p.data, rustIsWhitespace c = false) : rustTrim p = p := by
  unfold rustTrim
  rw [dropWhile_of_all_false h,
      dropWhile_of_all_false (fun x hx => h x (List.mem_reverse.mp hx)),
      List.reverse_reverse]

/-- Inversion of the validation pipeline on its success branch. -/
theorem validate_ok_iff (s p : String) :
    validate s = .ok p ↔
      ' ' ∉ (rustTrim s).data ∧ (rustTrim s).data ≠ [] ∧
      invalidCharsOf (rustTrim s) = [] ∧ p = lowercase (rustTrim s) := by
  simp only [validate]
  split_ifs with h1 h2 h3
  · have m1 : ' ' ∈ (rustTrim s).data := by simpa using h1
    simp [m1]
  · have m2 : (rustTrim s).data = [] := by simpa [List.isEmpty_iff] using h2
    simp [m2]
  · have m1 : ' ' ∉ (rustTrim s).data := by simpa using h1
    have m2 : (rustTrim s).data ≠ [] := by simpa [List.isEmpty_iff] using h2
    simp [m1, m2, h3, eq_comm]
  · simp [h3]

/-- Every successfully validated prefix is the lowercased trimmed input and
consists entirely of alphabet characters, which are fixed by ASCII
lowercasing, are not whitespace, and are not spaces. -/
theorem validate_ok_facts {s p : String} (h : validate s = .ok p) :
    p = lowercase (rustTrim s) ∧ p.data ≠ [] ∧
      ∀ c ∈ p.data, is_valid_zbase32_char c = true ∧ toAsciiLower c = c ∧
        rustIsWhitespace c = false ∧ c ≠ ' ' := by
  rw [validate_ok_iff] at h
  obtain ⟨_, h2, h3, hp⟩ := h
  have hchars : ∀ c ∈ (rustTrim s).data, is_valid_zbase32_char (toAsciiLower c) = true := by
    intro c hc
    have := List.filter_eq_nil_iff.mp h3 c hc
    simpa using this
  have hpdata : p.data = (rustTrim s).data.map toAsciiLower := by rw [hp]; rfl
  refine ⟨hp, ?_, ?_⟩
  · rw [hpdata]
    simp only [ne_eq, List.map_eq_nil_iff]
    exact h2
  · intro c hc
    rw [hpdata] at hc
    obtain ⟨c₀, hc₀, rfl⟩ := List.mem_map.mp hc
    have hv : is_valid_zbase32_char (toAsciiLower c₀) = true := hchars c₀ hc₀
    have hmem := valid_mem hv
    obtain ⟨hws, hfix, hsp⟩ := alphabet_chars_fixed _ hmem
    exact ⟨hv, by rw [hfix], hws, hsp⟩

/-- C7: on every successful validation the returned prefix is the trimmed,
lowercased form of the raw input, is non-empty, contains no whitespace, and
consists only of alphabet characters; in particular
validate("  MyPrefix  ") = ok("myprefix"). -/
theorem C7_success_normal_form :
    (∀ s p, validate s = .ok p →
      p = lowercase (rustTrim s) ∧ p.data ≠ [] ∧
        (∀ c ∈ p.data, rustIsWhitespace c = false) ∧
        (∀ c ∈ p.data, is_valid_zbase32_char c = true))
  ∧ validate ("  MyPrefix  ") = .ok ("myprefix") := by
  constructor
  · intro s p h
    obtain ⟨hp, hne, hall⟩ := validate_ok_facts h
    exact ⟨hp, hne, fun c hc => (hall c hc).2.2.1, fun c hc => (hall c hc).1⟩
  · decide

theorem C7_success_normal_form_witness :
    ("myprefix" : String) = lowercase (rustTrim ("  MyPrefix  ")) ∧
      ("myprefix" : String).data ≠ [] := by
  have h := C7_success_normal_form
  have hfacts := h.1 ("  MyPrefix  ") ("myprefix") h.2
  exact ⟨hfacts.1, hfacts.2.1⟩

/-- C8: validation is idempotent — if validation succeeds with output p,
validating p again succeeds and returns p itself. -/
theorem C8_validate_idempotent :
    ∀ s p, validate s = .ok p → validate p = .ok p := by
  intro s p h
  obtain ⟨_, hne, hall⟩ := validate_ok_facts h
  have htrim : rustTrim p = p := rustTrim_of_no_ws fun c hc => (hall c hc).2.2.1
  rw [validate_ok_iff, htrim]
  refine ⟨?_, hne, ?_, ?_⟩
  · intro hm
    exact (hall _ hm).2.2.2 rfl
  · exact List.filter_eq_nil_iff.mpr fun c hc => by
      simp [(hall c hc).2.1, (hall c hc).1]
  · show p = ⟨p.data.map toAsciiLower⟩
    rw [map_id_of_mem fun c hc => (hall c hc).2.1]

theorem C8_validate_idempotent_witness :
    validate ("myprefix") = .ok ("myprefix") :=
  C8_validate_idempotent ("  MyPrefix  ") ("myprefix") (by decide)

/-- C6: validation trims first and then reports EmptyInput whenever nothing
remains, and ContainsWhitespace whenever a space remains after trimming; in
particular on "", "   " and "ab cd". -/
theorem C6_trim_empty_whitespace :
    (∀ s, (rustTrim s).data = [] → validate s = .error .EmptyInput)
  ∧ (∀ s, ' ' ∈ (rustTrim s).data → validate s = .error .ContainsWhitespace)
  ∧ validate ("") = .error .EmptyInput
  ∧ validate ("   ") = .error .EmptyInput
  ∧ validate ("ab cd") = .error .ContainsWhitespace := by
  refine ⟨?_, ?_, by decide, by decide, by decide⟩
  · intro s h
    simp [validate, h]
  · intro s h
    simp [validate, h]

theorem C6_trim_empty_whitespace_witness :
    validate (" \t ") = .error .EmptyInput ∧ validate (" a b ") = .error .ContainsWhitespace :=
  ⟨C6_trim_empty_whitespace.1 (" \t ") (by decide),
   C6_trim_empty_whitespace.2.1 (" a b ") (by decide)⟩

/-- C5 counterexample: "ab cd" contains a character (the space) whose
case-folded form is outside the alphabet, yet validation reports
ContainsWhitespace, not InvalidCharacters as the claim states. -/
theorem C5_space_counterexample :
    validate ("ab cd") = .error .ContainsWhitespace ∧
    validate ("ab cd") ≠ .error (.InvalidCharacters [' ']) := by decide

/-- C5 amended: for inputs that survive the earlier trim/whitespace/empty
checks, validation succeeds exactly when every character ASCII-lowercases
into the 32-symbol alphabet, and otherwise fails with InvalidCharacters
listing exactly the offending characters in input order; the four excluded
symbols v, 0, l, 2 are rejected in either letter case. -/
theorem C5_invalid_chars_amended :
    (∀ s, ' ' ∉ (rustTrim s).data → (rustTrim s).data ≠ [] →
      (invalidCharsOf (rustTrim s) = [] → validate s = .ok (lowercase (rustTrim s))) ∧
      (invalidCharsOf (rustTrim s) ≠ [] →
        validate s = .error (.InvalidCharacters (invalidCharsOf (rustTrim s)))))
  ∧ (∀ c ∈ ['v', 'V', '0', 'l', 'L', '2'], is_valid_zbase32_char (toAsciiLower c) = false) := by
  constructor
  · intro s h1 h2
    constructor
    · intro h3
      simp [validate, h1, h3, List.isEmpty_iff, h2]
    · intro h3
      simp [validate, h1, h3, List.isEmpty_iff, h2]
  · decide

theorem C5_invalid_chars_amended_witness :
    validate ("v") = .error (.InvalidCharacters ['v']) ∧ validate ("YB") = .ok ("yb") := by
  have h1 := (C5_invalid_chars_amended.1 ("v") (by decide) (by decide)).2 (by decide)
  have h2 := (C5_invalid_chars_amended.1 ("YB") (by decide) (by decide)).1 (by decide)
  exact ⟨h1, h2⟩

/-- C3 counterexample: the thread-count argument "0" is not a positive
integer, yet it parses successfully and is used as-is, so the coordinator
does not fall back to hardware parallelism (here modelled as 8 CPUs). -/
theorem C3_zero_threads_counterexample :
    numThreads (some ("0")) 8 = 0 ∧ numThreads (some ("0")) 8 ≠ 8 := by decide

/-- C3 amended: an absent thread-count argument defaults to the CPU count
and an unparsable one falls back to the CPU count with a warning, but any
string that parses as usize — including "0" — is used verbatim, so zero
workers are possible. -/
theorem C3_thread_fallback_amended :
    (∀ cpu, numThreads none cpu = cpu)
  ∧ (∀ s cpu, parseUsize s = none → numThreads (some s) cpu = cpu)
  ∧ (∀ s v cpu, parseUsize s = some v → numThreads (some s) cpu = v) := by
  refine ⟨fun cpu => rfl, ?_, ?_⟩
  · intro s cpu h
    simp [numThreads, h]
  · intro s v cpu h
    simp [numThreads, h]

theorem C3_thread_fallback_amended_witness :
    numThreads (some ("7x")) 8 = 8 ∧ numThreads (some ("0")) 8 = 0 :=
  ⟨C3_thread_fallback_amended.2.1 ("7x") 8 (by decide),
   C3_thread_fallback_amended.2.2 ("0") 0 8 (by decide)⟩

/-- C4 counterexample: the zero-match branch is not surfaced as a fatal
error distinct from ordinary errors — it exits 0 (the success exit code)
on stdout, while an ordinary validation error exits 1. -/
theorem C4_no_match_not_fatal :
    (finalReport (none, 0)).exitCode = 0 ∧
    (finalReport (none, 0)).channel = .standardOut ∧
    (finalReport (none, 0)).exitCode = (finalReport (some ("x"), 0)).exitCode ∧
    (validationReport .EmptyInput).exitCode = 1 := by decide

/-- C4 amended: the zero-match branch does print a dedicated diagnostic
distinct from a plain not-found message, so the invariant violation is not
silently ignored, but it is not fatal: the line goes to stdout and the
process exits 0, whereas the ordinary input errors exit 1 on stderr. -/
theorem C4_no_match_report_amended :
    (∀ t : Nat, finalReport (none, t) =
      ⟨.standardOut, 0, "No matching key found. This shouldn\x27t happen!"⟩)
  ∧ (∀ e : VError,
      (validationReport e).exitCode = 1 ∧ (validationReport e).channel = .standardError)
  ∧ ("No matching key found. This shouldn\x27t happen!" : String) ≠ "No matching key found." := by
  refine ⟨fun t => rfl, fun e => ?_, by decide⟩
  cases e <;> exact ⟨rfl, rfl⟩

theorem hexDigitVal_hexDigitChar :
    ∀ d ∈ List.range 16, hexDigitVal (hexDigitChar d) = some d := by decide

theorem hexDecode_encode (bs : List Nat) (h : ∀ b ∈ bs, b < 256) :
    hexDecodeList (hexEncodeList bs) = some bs := by
  induction bs with
  | nil => rfl
  | cons b bs ih =>
      have hb : b < 256 := h b (by simp)
      have h1 : hexDigitVal (hexDigitChar (b / 16)) = some (b / 16) :=
        hexDigitVal_hexDigitChar _ (List.mem_range.mpr (by omega))
      have h2 : hexDigitVal (hexDigitChar (b % 16)) = some (b % 16) :=
        hexDigitVal_hexDigitChar _ (List.mem_range.mpr (by omega))
      have ih' := ih fun x hx => h x (by simp [hx])
      show hexDecodeList (hexDigitChar (b / 16) :: hexDigitChar (b % 16) :: hexEncodeList bs) = _
      simp only [hexDecodeList, h1, h2, ih']
      have hsplit : 16 * (b / 16) + b % 16 = b := by omega
      rw [hsplit]

/-- C10: hex-encoding a keypair secret and decoding it back succeeds and
reproduces the same 32 secret bytes, and get_keypair_from_secret_key
returns an error value — never panicking, being total — both on inputs
that are not valid hex and on inputs whose decoded length is not 32. -/
theorem C10_secret_key_roundtrip :
    (∀ k : Keypair, k.secret_key.length = 32 → (∀ b ∈ k.secret_key, b < 256) →
      get_keypair_from_secret_key (get_secret_key_from_keypair k) =
        .ok (Keypair.from_secret_key k.secret_key) ∧
      (Keypair.from_secret_key k.secret_key).secret_key = k.secret_key)
  ∧ (∀ s, hexDecodeList s.data = none →
      get_keypair_from_secret_key s = .error ("Failed to decode secret key"))
  ∧ (∀ s bs, hexDecodeList s.data = some bs → bs.length ≠ 32 →
      get_keypair_from_secret_key s = .error ("Failed to convert secret key to 32-byte array")) := by
  refine ⟨?_, ?_, ?_⟩
  · intro k hlen hbound
    have hdec : hexDecodeList (hexEncodeList k.secret_key) = some k.secret_key :=
      hexDecode_encode _ hbound
    refine ⟨?_, rfl⟩
    show (match hexDecodeList (hexEncodeList k.secret_key) with
      | none => Except.error ("Failed to decode secret key")
      | some bytes =>
          if bytes.length = 32 then Except.ok (Keypair.from_secret_key bytes)
          else Except.error ("Failed to convert secret key to 32-byte array")) = _
    rw [hdec]
    simp [hlen]
  · intro s h
    simp [get_keypair_from_secret_key, h]
  · intro s bs h hne
    simp [get_keypair_from_secret_key, h, hne]

theorem C10_secret_key_roundtrip_witness :
    get_keypair_from_secret_key (get_secret_key_from_keypair ⟨List.replicate 32 0⟩) =
      .ok (Keypair.from_secret_key (List.replicate 32 0)) ∧
    get_keypair_from_secret_key ("zz") = .error ("Failed to decode secret key") ∧
    get_keypair_from_secret_key ("00") = .error ("Failed to convert secret key to 32-byte array") :=
  ⟨(C10_secret_key_roundtrip.1 ⟨List.replicate 32 0⟩ (by decide) (by decide)).1,
   C10_secret_key_roundtrip.2.1 ("zz") (by decide),
   C10_secret_key_roundtrip.2.2 ("00") [0] (by decide) (by decide)⟩

theorem runSingle_nomatch_chunk :
    ∀ (k la a : Nat) (rest : List String), la + k ≤ 999 →
    runSingle ("a") (List.replicate k ("b") ++ rest) la a =
      runSingle ("a") rest (la + k) a := by
  intro k
  induction k with
  | zero => intro la a rest _; simp
  | succ k ih =>
      intro la a rest h
      rw [List.replicate_succ, List.cons_append]
      have hm : ((la + 1) % 1000 == 0) = false := by
        have h1 : (la + 1) % 1000 = la + 1 := Nat.mod_eq_of_lt (by omega)
        simp [h1]
      have hp : ("a".data.isPrefixOf (lowercase ("b")).data) = false := by decide
      simp only [runSingle, hm, hp, Bool.false_eq_true, if_false]
      rw [ih (la + 1) a rest (by omega)]
      congr 1
      omega

/-- C1 evaluated at the failing input: a single worker whose 1000th sample
is the first match. The one published batch of 1000 is counted again
inside the winning worker's returned local count, so the program reports
2000 attempts although only 1000 keypairs were sampled (the match position
in the script). -/
theorem C1_single_worker_overcount :
    runSingle ("a") (List.replicate 999 ("b") ++ [("a")]) 0 0 = (some (("a"), 1000), 1000)
  ∧ totalAttemptsReported (runSingle ("a") (List.replicate 999 ("b") ++ [("a")]) 0 0) = 2000
  ∧ (List.replicate 999 ("b") ++ [("a")]).length = 1000
  ∧ totalAttemptsReported (runSingle ("a") (List.replicate 999 ("b") ++ [("a")]) 0 0) ≠
      (List.replicate 999 ("b") ++ [("a")]).length := by
  have hrun : runSingle ("a") (List.replicate 999 ("b") ++ [("a")]) 0 0 =
      (some (("a"), 1000), 1000) := by
    rw [runSingle_nomatch_chunk 999 0 0 [("a")] (by omega)]
    decide
  have hlen : (List.replicate 999 ("b") ++ [("a")]).length = 1000 := by
    rw [List.length_append, List.length_replicate]
    decide
  refine ⟨hrun, by rw [hrun]; rfl, hlen, ?_⟩
  rw [hrun, hlen]
  decide

/-- C2 counterexample: with two workers whose first samples both match,
the schedule in which both pass the loop-head latch check before either
stores leaves both workers returning a non-empty result, because the match
branch stores the latch unconditionally instead of checking its prior
value. -/
theorem C2_two_workers_return_results :
    returnedSome (runSearch ("a") (fun i _ => if i.val = 0 then "ay" else "ab")
      (initConfig 2) [0, 1, 0, 1]) 0 = true ∧
    returnedSome (runSearch ("a") (fun i _ => if i.val = 0 then "ay" else "ab")
      (initConfig 2) [0, 1, 0, 1]) 1 = true := by decide

/-- C2 amended: a worker that observes the latch true at its loop head
exits with no result, but a worker that reaches the match test with a
matching candidate stores true and returns its candidate regardless of the
latch's prior value, so several workers can return non-empty results; the
join loop then keeps the last matched worker in spawn order. -/
theorem C2_latch_race_amended :
    (∀ (n : Nat) (pfx : String) (prov : Fin n → Nat → String) (cfg : Config n) (i : Fin n),
      cfg.found = true → (cfg.workers i).pc = .head →
      ((searchStep pfx prov cfg i).workers i).pc = .done none)
  ∧ (∀ (n : Nat) (pfx : String) (prov : Fin n → Nat → String) (cfg : Config n) (i : Fin n)
      (enc : String),
      (cfg.workers i).pc = .check enc →
      pfx.data.isPrefixOf (lowercase enc).data = true →
      ((searchStep pfx prov cfg i).workers i).pc =
          .done (some (enc, (cfg.workers i).localAttempts))
        ∧ (searchStep pfx prov cfg i).found = true)
  ∧ aggregate (runSearch ("a") (fun i _ => if i.val = 0 then "ay" else "ab")
      (initConfig 2) [0, 1, 0, 1]) = (some ("ab"), 1) := by
  refine ⟨?_, ?_, by decide⟩
  · intro n pfx prov cfg i hf hpc
    simp [searchStep, workerStep, hpc, hf, Function.update_same]
  · intro n pfx prov cfg i enc hpc hm
    constructor
    · simp [searchStep, workerStep, hpc, hm, Function.update_same]
    · simp [searchStep, workerStep, hpc, hm]

theorem C2_latch_race_amended_witness :
    ((searchStep ("a") (fun _ _ => "b") (⟨true, 0, fun _ => ⟨.head, 0⟩⟩ : Config 1) 0).workers
        0).pc = .done none
  ∧ ((searchStep ("a") (fun _ _ => "b") (⟨false, 0, fun _ => ⟨.check ("a"), 3⟩⟩ : Config 1)
        0).workers 0).pc = .done (some (("a"), 3))
  ∧ (searchStep ("a") (fun _ _ => "b") (⟨false, 0, fun _ => ⟨.check ("a"), 3⟩⟩ : Config 1)
        0).found = true :=
  ⟨C2_latch_race_amended.1 1 ("a") (fun _ _ => "b") ⟨true, 0, fun _ => ⟨.head, 0⟩⟩ 0 rfl rfl,
   (C2_latch_race_amended.2.1 1 ("a") (fun _ _ => "b")
      ⟨false, 0, fun _ => ⟨.check ("a"), 3⟩⟩ 0 ("a") rfl (by decide)).1,
   (C2_latch_race_amended.2.1 1 ("a") (fun _ _ => "b")
      ⟨false, 0, fun _ => ⟨.check ("a"), 3⟩⟩ 0 ("a") rfl (by decide)).2⟩

theorem searchStep_found_mono {n : Nat} (pfx : String) (prov : Fin n → Nat → String)
    (cfg : Config n) (i : Fin n) (h : cfg.found = true) :
    (searchStep pfx prov cfg i).found = true := by
  cases hpc : (cfg.workers i).pc with
  | head => simp [searchStep, workerStep, hpc, h]
  | publish enc => simp [searchStep, workerStep, hpc, h]
  | check enc =>
      simp only [searchStep, workerStep, hpc]
      split
      · rfl
      · exact h
  | done r => simp [searchStep, workerStep, hpc, h]

theorem searchStep_attempts_le {n : Nat} (pfx : String) (prov : Fin n → Nat → String)
    (cfg : Config n) (i : Fin n) :
    cfg.attempts ≤ (searchStep pfx prov cfg i).attempts := by
  cases hpc : (cfg.workers i).pc with
  | head =>
      simp only [searchStep, workerStep, hpc]
      split
      · exact le_refl _
      · split <;> exact le_refl _
  | publish enc =>
      simp only [searchStep, workerStep, hpc]
      omega
  | check enc =>
      simp only [searchStep, workerStep, hpc]
      split <;> exact le_refl _
  | done r =>
      simp only [searchStep, workerStep, hpc]
      exact le_refl _

theorem runSearch_found_mono {n : Nat} (pfx : String) (prov : Fin n → Nat → String)
    (sched : List (Fin n)) :
    ∀ cfg : Config n, cfg.found = true → (runSearch pfx prov cfg sched).found = true := by
  induction sched with
  | nil => intro cfg h; exact h
  | cons i rest ih => intro cfg h; exact ih _ (searchStep_found_mono pfx prov cfg i h)

theorem runSearch_attempts_le {n : Nat} (pfx : String) (prov : Fin n → Nat → String)
    (sched : List (Fin n)) :
    ∀ cfg : Config n, cfg.attempts ≤ (runSearch pfx prov cfg sched).attempts := by
  induction sched with
  | nil => intro cfg; exact le_refl _
  | cons i rest ih =>
      intro cfg
      exact le_trans (searchStep_attempts_le pfx prov cfg i) (ih _)

/-- C9: along every schedule the shared attempts counter never decreases,
and once the found latch is true after some prefix of the schedule it is
still true after any continuation — it is never reset, and being Boolean
it therefore transitions at most once from false to true. Coordinator
accesses (the final load at line 202) read without writing and are covered
trivially. -/
theorem C9_latch_counter_monotone :
    ∀ (n : Nat) (pfx : String) (prov : Fin n → Nat → String) (cfg : Config n)
      (s1 s2 : List (Fin n)),
      cfg.attempts ≤ (runSearch pfx prov cfg s1).attempts
    ∧ ((runSearch pfx prov cfg s1).found = true →
        (runSearch pfx prov cfg (s1 ++ s2)).found = true) := by
  intro n pfx prov cfg s1 s2
  refine ⟨runSearch_attempts_le pfx prov s1 cfg, fun h => ?_⟩
  rw [runSearch, List.foldl_append]
  exact runSearch_found_mono pfx prov s2 _ h

theorem C9_latch_counter_monotone_witness :
    (5 : Nat) ≤ (runSearch ("a") (fun _ _ => "b")
        (⟨true, 5, fun _ => ⟨.head, 0⟩⟩ : Config 1) [0]).attempts
  ∧ (runSearch ("a") (fun _ _ => "b")
        (⟨true, 5, fun _ => ⟨.head, 0⟩⟩ : Config 1) ([0] ++ [0])).found = true :=
  ⟨(C9_latch_counter_monotone 1 ("a") (fun _ _ => "b")
      ⟨true, 5, fun _ => ⟨.head, 0⟩⟩ [0] [0]).1,
   (C9_latch_counter_monotone 1 ("a") (fun _ _ => "b")
      ⟨true, 5, fun _ => ⟨.head, 0⟩⟩ [0] [0]).2 (by decide)⟩
